import Mathlib

/-!
Verification of the function-drawing scorer (`src/utils.py`, `src/app.py`).

The numeric core is embedded over `ℚ`: the Python code computes with IEEE
floats, but every algorithmic branch (deduplication, sorting, linear
interpolation, clamping, the MSE/score formulas) is exact rational
arithmetic, so `ℚ` is a faithful carrier for the finite-valued fragment.
Non-finite numpy values (inf/nan), which matter for the evaluation-error
claims, are modelled separately by the `NumVal` type.
-/

/-! ## Stroke resampler: `sample_points` (src/utils.py lines 42-88) -/

/-- Ordering of drawn points by their x-coordinate, the sort key used by
`np.argsort(x_unique)` in `sample_points`. -/
def ptLE (p q : ℚ × ℚ) : Prop := p.1 ≤ q.1

instance : DecidableRel ptLE := fun p q => inferInstanceAs (Decidable (p.1 ≤ q.1))

instance : IsTotal (ℚ × ℚ) ptLE := ⟨fun a b => le_total a.1 b.1⟩

instance : IsTrans (ℚ × ℚ) ptLE := ⟨fun _ _ _ h h' => le_trans h h'⟩

/-- Scan of a point list that keeps only the first point for each
x-coordinate, skipping x-values already in `seen`.  Applied to the reversed
point list this is exactly the reversed `for i in range(len(x_drawn)-1,-1,-1)`
loop of `sample_points`, whose `seen_x` set makes it keep the first occurrence
in reversed order. -/
def keepFirstByX : List (ℚ × ℚ) → List ℚ → List (ℚ × ℚ)
  | [], _ => []
  | p :: rest, seen =>
    if p.1 ∈ seen then keepFirstByX rest seen
    else p :: keepFirstByX rest (p.1 :: seen)

/-- Deduplication by x-coordinate keeping the last occurrence, in original
relative order: `sample_points` walks the indices from high to low collecting
unseen x-values and then reverses the collected index list (src/utils.py
lines 60-70). -/
def dedupLastByX (ps : List (ℚ × ℚ)) : List (ℚ × ℚ)  :=
  (keepFirstByX ps.reverse []).reverse

/-- Sorting the deduplicated points by ascending x-coordinate
(`np.argsort(x_unique)`, src/utils.py lines 72-75).  After `dedupLastByX`
the x-values are pairwise distinct, so the sorted list is unique and any
correct sorting algorithm embeds `argsort` faithfully; insertion sort is
used here. -/
def sortByX (ps : List (ℚ × ℚ)) : List (ℚ × ℚ) :=
  List.insertionSort ptLE ps

/-- Piecewise-linear evaluation over a knot list sorted by ascending x, for
a query x known to be ≥ the first knot's x: walks the segments and clamps to
the final knot's y beyond the right end.  This is the right-hand part of
`scipy.interpolate.interp1d(x_unique, y_unique, kind='linear',
bounds_error=False, fill_value=(y_unique[0], y_unique[-1]))`. -/
def interpSeg : List (ℚ × ℚ) → ℚ → ℚ
  | [], _ => 0
  | [p], _ => p.2
  | p :: q :: rest, x =>
    if x ≤ q.1 then p.2 + (q.2 - p.2) * (x - p.1) / (q.1 - p.1)
    else interpSeg (q :: rest) x

/-- Linear interpolation with flat extrapolation at both ends: queries below
the first knot return the first knot's y (`fill_value` low component), queries
beyond the last knot return the last knot's y (`fill_value` high component),
interior queries are interpolated linearly.  Embeds the `interp1d` object
built at src/utils.py line 83. -/
def interpClamp (knots : List (ℚ × ℚ)) (x : ℚ) : ℚ :=
  match knots with
  | [] => 0
  | p :: rest => if x < p.1 then p.2 else interpSeg (p :: rest) x

/-- Stroke resampler `sample_points(points, x_samples)` (src/utils.py lines
42-88): empty input gives zeros; otherwise deduplicate by x keeping the last
occurrence, sort by x, give zeros when fewer than 2 unique x-values remain,
else sample the clamped linear interpolant at every grid value in order. -/
def sample_points (points : List (ℚ × ℚ)) (x_samples : List ℚ) : List ℚ :=
  if points.isEmpty then x_samples.map fun _ => 0
  else
    let srt := sortByX (dedupLastByX points)
    if srt.length < 2 then x_samples.map fun _ => 0
    else x_samples.map (interpClamp srt)

/-! ## Similarity scorer: `calculate_mse` (src/utils.py lines 29-40) and the
score formula (src/app.py lines 195-196) -/

/-- Mean squared error `np.mean((predicted - actual) ** 2)` of two
equal-length aligned sample sequences (src/utils.py line 40), in exact
rational arithmetic.  `np.mean` of the empty array is nan, which lies
outside `ℚ`; all theorems about this definition assume a non-empty input,
matching the spec's non-empty-sequence precondition. -/
def calculate_mse (predicted actual : List ℚ) : ℚ :=
  (List.zipWith (fun p a => (p - a) ^ 2) predicted actual).sum / predicted.length

/-- Score formula of src/app.py line 196:
`score = max(0, 100 * (1 - min(1, mse / 100)))`. -/
def score_from_mse (mse : ℚ) : ℚ :=
  max 0 (100 * (1 - min 1 (mse / 100)))

/-- Modelled from the spec's words (§4.4), for comparison with
`score_from_mse`: `score = clamp(100 * (1 - clamp(MSE / 100, 0, 1)), 0, 100)`
where `clamp(v, lo, hi) = max lo (min hi v)`. -/
def scoreSpecFormula (mse : ℚ) : ℚ :=
  max 0 (min 100 (100 * (1 - max 0 (min 1 (mse / 100)))))

/-! ## Expression parsing: a model of `sympy.sympify` on the arithmetic
fragment

The repository calls `sp.sympify` (src/app.py line 73, src/utils.py line 21)
and `sp.lambdify(x, expr, 'numpy')` (src/utils.py line 24); these live in the
external sympy library, so their relevant behaviour is modelled here on the
arithmetic fragment the claims exercise: natural-number literals,
identifiers, `+ - * / ** ( )` and unary signs, with `^` converted to `**`
(sympify's default `convert_xor=True`).  Documented behaviour captured by the
model: any identifier parses successfully as a symbol (`x` as the free
variable, every other name as an extra free symbol — sympify does NOT reject
unknown identifiers); syntactically invalid input raises `SympifyError`.
Outside the model (unused by every theorem below): decimal literals, the
transcendental function whitelist, and sympy's automatic canonicalisation of
the parsed tree (on the inputs used below the parsed form and sympy's
canonical form evaluate identically). -/

inductive Tok
  | num (n : ℕ)
  | ident (s : String)
  | plus
  | minus
  | star
  | slash
  | dstar
  | lparen
  | rparen
deriving DecidableEq, Repr

/-- Longest digit run at the head of a character list, with the remainder. -/
def takeDigits : List Char → List Char × List Char
  | [] => ([], [])
  | c :: cs =>
    if c.isDigit then
      let r := takeDigits cs
      (c :: r.1, r.2)
    else ([], c :: cs)

/-- Python identifier continuation characters (letters, digits, underscore). -/
def isIdentChar (c : Char) : Bool := c.isAlphanum || c = '_'

/-- Python identifier start characters (letters, underscore). -/
def isIdentStart (c : Char) : Bool := c.isAlpha || c = '_'

/-- Longest identifier run at the head of a character list. -/
def takeIdent : List Char → List Char × List Char
  | [] => ([], [])
  | c :: cs =>
    if isIdentChar c then
      let r := takeIdent cs
      (c :: r.1, r.2)
    else ([], c :: cs)

/-- Decimal value of a digit run. -/
def digitsToNat (ds : List Char) : ℕ :=
  ds.foldl (fun n c => 10 * n + (c.toNat - 48)) 0

/-- Fuelled tokenizer for the arithmetic fragment; one unit of fuel per
token, and every token consumes at least one character, so fuel equal to the
character count always suffices.  `none` is a tokenization failure
(`SympifyError` in sympy). -/
def tokAux : ℕ → List Char → Option (List Tok)
  | _, [] => some []
  | 0, _ :: _ => none
  | fuel + 1, c :: cs =>
    if c = ' ' then tokAux fuel cs
    else if c.isDigit then
      let r := takeDigits (c :: cs)
      (tokAux fuel r.2).map fun ts => Tok.num (digitsToNat r.1) :: ts
    else if isIdentStart c then
      let r := takeIdent (c :: cs)
      (tokAux fuel r.2).map fun ts => Tok.ident (String.mk r.1) :: ts
    else if c = '+' then (tokAux fuel cs).map fun ts => Tok.plus :: ts
    else if c = '-' then (tokAux fuel cs).map fun ts => Tok.minus :: ts
    else if c = '*' then
      match cs with
      | '*' :: cs2 => (tokAux fuel cs2).map fun ts => Tok.dstar :: ts
      | _ => (tokAux fuel cs).map fun ts => Tok.star :: ts
    else if c = '/' then (tokAux fuel cs).map fun ts => Tok.slash :: ts
    else if c = '(' then (tokAux fuel cs).map fun ts => Tok.lparen :: ts
    else if c = ')' then (tokAux fuel cs).map fun ts => Tok.rparen :: ts
    else none

/-- Tokenize a whole string. -/
def tokenize (s : String) : Option (List Tok) :=
  tokAux s.data.length s.data

/-- Abstract syntax of parsed expressions: `var` is the conventional free
variable `x`; `sym name` is any other identifier, which sympify happily turns
into a fresh free symbol. -/
inductive SymExpr
  | num (n : ℕ)
  | var
  | sym (name : String)
  | neg (a : SymExpr)
  | add (a b : SymExpr)
  | sub (a b : SymExpr)
  | mul (a b : SymExpr)
  | div (a b : SymExpr)
  | pow (a b : SymExpr)
deriving DecidableEq, Repr

mutual

/-- Additive level of the Python expression grammar sympify parses:
`expr := term (('+'|'-') term)*`. -/
def parseAddSub : ℕ → List Tok → Option (SymExpr × List Tok)
  | 0, _ => none
  | f + 1, ts =>
    match parseTerm f ts with
    | none => none
    | some (e, rest) => parseAddSubLoop f e rest

/-- Left-associative fold of the additive operators. -/
def parseAddSubLoop : ℕ → SymExpr → List Tok → Option (SymExpr × List Tok)
  | 0, _, _ => none
  | f + 1, e, Tok.plus :: rest =>
    match parseTerm f rest with
    | none => none
    | some (e2, rest2) => parseAddSubLoop f (SymExpr.add e e2) rest2
  | f + 1, e, Tok.minus :: rest =>
    match parseTerm f rest with
    | none => none
    | some (e2, rest2) => parseAddSubLoop f (SymExpr.sub e e2) rest2
  | _ + 1, e, ts => some (e, ts)

/-- Multiplicative level: `term := factor (('*'|'/') factor)*`. -/
def parseTerm : ℕ → List Tok → Option (SymExpr × List Tok)
  | 0, _ => none
  | f + 1, ts =>
    match parseFactor f ts with
    | none => none
    | some (e, rest) => parseTermLoop f e rest

/-- Left-associative fold of the multiplicative operators. -/
def parseTermLoop : ℕ → SymExpr → List Tok → Option (SymExpr × List Tok)
  | 0, _, _ => none
  | f + 1, e, Tok.star :: rest =>
    match parseFactor f rest with
    | none => none
    | some (e2, rest2) => parseTermLoop f (SymExpr.mul e e2) rest2
  | f + 1, e, Tok.slash :: rest =>
    match parseFactor f rest with
    | none => none
    | some (e2, rest2) => parseTermLoop f (SymExpr.div e e2) rest2
  | _ + 1, e, ts => some (e, ts)

/-- Unary level, with Python's precedence: `factor := ('+'|'-') factor |
power`, so `-x**2` parses as `-(x**2)`. -/
def parseFactor : ℕ → List Tok → Option (SymExpr × List Tok)
  | 0, _ => none
  | f + 1, Tok.minus :: rest =>
    (parseFactor f rest).map fun r => (SymExpr.neg r.1, r.2)
  | f + 1, Tok.plus :: rest => parseFactor f rest
  | f + 1, ts => parsePower f ts

/-- Exponentiation level, right-associative with a `factor` exponent so
`2**-1` parses: `power := atom ('**' factor)?`. -/
def parsePower : ℕ → List Tok → Option (SymExpr × List Tok)
  | 0, _ => none
  | f + 1, ts =>
    match parseAtom f ts with
    | none => none
    | some (a, Tok.dstar :: rest) =>
      match parseFactor f rest with
      | none => none
      | some (b, rest2) => some (SymExpr.pow a b, rest2)
    | some (a, rest) => some (a, rest)

/-- Atoms: literals, identifiers, parenthesised expressions. -/
def parseAtom : ℕ → List Tok → Option (SymExpr × List Tok)
  | 0, _ => none
  | _ + 1, Tok.num n :: rest => some (SymExpr.num n, rest)
  | _ + 1, Tok.ident s :: rest =>
    some (if s = "x" then SymExpr.var else SymExpr.sym s, rest)
  | f + 1, Tok.lparen :: rest =>
    match parseAddSub f rest with
    | some (e, Tok.rparen :: rest2) => some (e, rest2)
    | _ => none
  | _, _ => none

end

/-- Conversion of `^` to `**` applied by sympify itself (`convert_xor=True`
is sympify's default) and again, redundantly, by
`function_str.replace('^', '**')` at src/utils.py line 18. -/
def replaceCaret (s : String) : String :=
  String.mk (s.data.flatMap fun c => if c = '^' then ['*', '*'] else [c])

/-- Model of `sympy.sympify` on the arithmetic fragment: convert `^`,
tokenize, parse the Python expression grammar, and require that all input is
consumed.  `none` models a raised `SympifyError`; note that an unknown
identifier is NOT a failure — it parses as a free symbol. -/
def sympify (s : String) : Option SymExpr :=
  match tokenize (replaceCaret s) with
  | none => none
  | some ts =>
    match parseAddSub (5 * ts.length + 5) ts with
    | some (e, []) => some e
    | _ => none

/-! ## Numpy evaluation: `evaluate_function` (src/utils.py lines 5-27) -/

/-- Numeric values under numpy float semantics: exact rationals for the
finite fragment, plus nan and the signed infinities that numpy produces for
domain errors (with a warning, never an exception).  Signed zero is not
modelled; no theorem below depends on it. -/
inductive NumVal
  | fin (q : ℚ)
  | nan
  | pinf
  | ninf
deriving DecidableEq, Repr

/-- Numpy negation. -/
def nvNeg : NumVal → NumVal
  | .fin a => .fin (-a)
  | .nan => .nan
  | .pinf => .ninf
  | .ninf => .pinf

/-- Numpy addition: nan propagates, opposite infinities give nan. -/
def nvAdd : NumVal → NumVal → NumVal
  | .nan, _ => .nan
  | _, .nan => .nan
  | .fin a, .fin b => .fin (a + b)
  | .pinf, .ninf => .nan
  | .ninf, .pinf => .nan
  | .pinf, _ => .pinf
  | .ninf, _ => .ninf
  | .fin _, .pinf => .pinf
  | .fin _, .ninf => .ninf

/-- Numpy subtraction, `a + (-b)` exactly as for IEEE floats. -/
def nvSub (a b : NumVal) : NumVal := nvAdd a (nvNeg b)

/-- Numpy multiplication: nan propagates, zero times infinity is nan. -/
def nvMul : NumVal → NumVal → NumVal
  | .nan, _ => .nan
  | _, .nan => .nan
  | .fin a, .fin b => .fin (a * b)
  | .fin a, .pinf => if a = 0 then .nan else if 0 < a then .pinf else .ninf
  | .fin a, .ninf => if a = 0 then .nan else if 0 < a then .ninf else .pinf
  | .pinf, .fin b => if b = 0 then .nan else if 0 < b then .pinf else .ninf
  | .ninf, .fin b => if b = 0 then .nan else if 0 < b then .ninf else .pinf
  | .pinf, .pinf => .pinf
  | .pinf, .ninf => .ninf
  | .ninf, .pinf => .ninf
  | .ninf, .ninf => .pinf

/-- Numpy true division: finite by zero gives a signed infinity (0/0 gives
nan), with a runtime warning but no exception. -/
def nvDiv : NumVal → NumVal → NumVal
  | .nan, _ => .nan
  | _, .nan => .nan
  | .fin a, .fin b =>
    if b = 0 then (if a = 0 then .nan else if 0 < a then .pinf else .ninf)
    else .fin (a / b)
  | .fin _, .pinf => .fin 0
  | .fin _, .ninf => .fin 0
  | .pinf, .fin b => if 0 ≤ b then .pinf else .ninf
  | .ninf, .fin b => if 0 ≤ b then .ninf else .pinf
  | .pinf, _ => .nan
  | .ninf, _ => .nan

/-- Iterated rational multiplication, definitionally equal to `x ^ n`
(`ratNpow_eq_pow` below) but written so the kernel can evaluate it on
concrete inputs. -/
def ratNpow (x : ℚ) : ℕ → ℚ
  | 0 => 1
  | n + 1 => x * ratNpow x n

/-- Integer powers of a rational, agreeing with `zpow` away from the
zero-base-negative-exponent case, which `nvPow` guards separately. -/
def ratZpow (x : ℚ) (n : ℤ) : ℚ :=
  if 0 ≤ n then ratNpow x n.toNat else 1 / ratNpow x (-n).toNat

/-- Numpy float power (C `pow` semantics): anything to the 0 is 1, 1 to
anything is 1, nan otherwise propagates, integer exponents act on rationals
exactly (with `0 ** negative = +inf`).  A fractional exponent on a positive
base has an irrational value outside `ℚ` and is mapped to nan; no theorem
below uses that case. -/
def nvPow (a b : NumVal) : NumVal :=
  match a, b with
  | .fin x, .fin y =>
    if y = 0 then .fin 1
    else if x = 1 then .fin 1
    else if y.den = 1 then
      (if x = 0 ∧ y.num < 0 then .pinf else .fin (ratZpow x y.num))
    else .nan
  | .nan, .fin y => if y = 0 then .fin 1 else .nan
  | .fin x, .nan => if x = 1 then .fin 1 else .nan
  | .nan, _ => .nan
  | .pinf, .nan => .nan
  | .ninf, .nan => .nan
  | .pinf, .fin y => if y = 0 then .fin 1 else if 0 < y then .pinf else .fin 0
  | .ninf, .fin y =>
    if y = 0 then .fin 1
    else if 0 < y then (if y.den = 1 ∧ y.num % 2 = 1 then .ninf else .pinf)
    else .fin 0
  | .fin x, .pinf =>
    if x = 1 ∨ x = -1 then .fin 1 else if 1 < |x| then .pinf else .fin 0
  | .fin x, .ninf =>
    if x = 1 ∨ x = -1 then .fin 1 else if 1 < |x| then .fin 0 else .pinf
  | .pinf, .pinf => .pinf
  | .pinf, .ninf => .fin 0
  | .ninf, .pinf => .pinf
  | .ninf, .ninf => .fin 0

/-- Result value of the function `sp.lambdify` generates: a numpy array when
the printed expression mentions the argument `x`, otherwise a plain Python
scalar — the generated code is literally `lambda x: <printed expression>`,
so a constant body never touches the array argument. -/
inductive NpVal
  | scalar (v : NumVal)
  | vec (vs : List NumVal)
deriving DecidableEq, Repr

/-- Numpy broadcasting of a binary operation over scalar/array operands. -/
def npBroadcast (f : NumVal → NumVal → NumVal) : NpVal → NpVal → NpVal
  | .scalar a, .scalar b => .scalar (f a b)
  | .scalar a, .vec bs => .vec (bs.map fun b => f a b)
  | .vec xs, .scalar b => .vec (xs.map fun a => f a b)
  | .vec xs, .vec bs => .vec (List.zipWith f xs bs)

/-- Numpy unary map over scalar/array operands. -/
def npMap (f : NumVal → NumVal) : NpVal → NpVal
  | .scalar a => .scalar (f a)
  | .vec xs => .vec (xs.map f)

/-- Evaluation of the lambdified expression body on the input array, with
numpy broadcasting: the free variable denotes the whole input array, every
operation broadcasts.  The `sym` case is unreachable in `evaluate_function`
(a foreign symbol makes the generated lambda raise `NameError` first) and is
mapped to a scalar nan for totality. -/
def npEval : SymExpr → List NumVal → NpVal
  | .num n, _ => .scalar (.fin n)
  | .var, xs => .vec xs
  | .sym _, _ => .scalar .nan
  | .neg a, xs => npMap nvNeg (npEval a xs)
  | .add a b, xs => npBroadcast nvAdd (npEval a xs) (npEval b xs)
  | .sub a b, xs => npBroadcast nvSub (npEval a xs) (npEval b xs)
  | .mul a b, xs => npBroadcast nvMul (npEval a xs) (npEval b xs)
  | .div a b, xs => npBroadcast nvDiv (npEval a xs) (npEval b xs)
  | .pow a b, xs => npBroadcast nvPow (npEval a xs) (npEval b xs)

/-- Test for an identifier other than `x` anywhere in the expression; the
lambda `sp.lambdify(x, expr, 'numpy')` generates references such a name
freely, so calling it raises `NameError`. -/
def hasFreeSym : SymExpr → Bool
  | .num _ => false
  | .var => false
  | .sym _ => true
  | .neg a => hasFreeSym a
  | .add a b => hasFreeSym a || hasFreeSym b
  | .sub a b => hasFreeSym a || hasFreeSym b
  | .mul a b => hasFreeSym a || hasFreeSym b
  | .div a b => hasFreeSym a || hasFreeSym b
  | .pow a b => hasFreeSym a || hasFreeSym b

/-- Outcome of `evaluate_function`: either the value numpy returns, or a
Python exception propagating out of the call (the function body has no
try/except; src/app.py lines 187-243 catch it). -/
inductive EvalResult
  | ok (v : NpVal)
  | error
deriving DecidableEq, Repr

/-- Embedding of `evaluate_function(function_str, x_values)` (src/utils.py
lines 5-27): replace `^` with `**`, sympify (raising on syntax errors),
lambdify over the single symbol `x`, and call the generated function on the
input array.  A leftover foreign symbol raises `NameError` at call time;
otherwise numpy evaluates with silent nan/inf propagation, and the result is
a scalar when the expression body never mentions `x`. -/
def evaluate_function (function_str : String) (x_values : List NumVal) : EvalResult :=
  match sympify (replaceCaret function_str) with
  | none => .error
  | some expr =>
    if hasFreeSym expr then .error
    else .ok (npEval expr x_values)

/-! ## The Test Function validation path (src/app.py lines 68-82) -/

/-- Outcome of the Test Function button handler: success stores the function
string and resets drawing state, `invalidExpression` is the `st.error`
branch of the try/except around `sp.sympify`, `emptyWarning` the empty-input
guard. -/
inductive TestFnResult
  | success (e : SymExpr)
  | invalidExpression
  | emptyWarning
deriving DecidableEq, Repr

/-- Embedding of the Test Function button handler (src/app.py lines 68-82):
nonempty input is validated by attempting `sp.sympify(function_input)`
inside try/except. -/
def testFunctionHandler (input : String) : TestFnResult :=
  if input = "" then TestFnResult.emptyWarning
  else
    match sympify input with
    | some e => TestFnResult.success e
    | none => TestFnResult.invalidExpression

/-- Mean squared error under numpy float semantics, for tracing non-finite
samples through the scorer: `np.mean((predicted - actual) ** 2)` with
silent nan/inf propagation (`np.mean` of the empty array is nan). -/
def calculate_mse_np (predicted actual : List NumVal) : NumVal :=
  if predicted.length = 0 then NumVal.nan
  else
    nvDiv
      ((List.zipWith (fun p a => nvPow (nvSub p a) (NumVal.fin 2)) predicted actual).foldr
        nvAdd (NumVal.fin 0))
      (NumVal.fin predicted.length)

/-! ## Helper lemmas on the resampler -/

/-- Strict x-ordering of drawn points: after deduplication the sorted knot
list is strictly increasing in x, which is also `interp1d`'s precondition
on its first argument. -/
def ptLT (p q : ℚ × ℚ) : Prop := p.1 < q.1

instance : IsAntisymm (ℚ × ℚ) ptLT := ⟨fun _ _ h h' => absurd h' (lt_asymm h)⟩

/-- Membership in the reversed-scan deduplication: a point survives exactly
when its x-coordinate is fresh and the point is the first hit for that x in
the scanned list. -/
theorem mem_keepFirstByX {l : List (ℚ × ℚ)} {seen : List ℚ} {p : ℚ × ℚ} :
    p ∈ keepFirstByX l seen ↔
      p.1 ∉ seen ∧ l.find? (fun q => decide (q.1 = p.1)) = some p := by
  induction l generalizing seen with
  | nil => simp [keepFirstByX]
  | cons a rest ih =>
    rw [keepFirstByX]
    by_cases ha : a.1 ∈ seen
    · rw [if_pos ha, ih]
      by_cases hx : a.1 = p.1
      · constructor
        · rintro ⟨hseen, -⟩
          exact absurd (hx ▸ ha) hseen
        · rintro ⟨hseen, -⟩
          exact absurd (hx ▸ ha) hseen
      · rw [List.find?_cons_of_neg _ (by simpa using hx)]
    · rw [if_neg ha]
      by_cases hx : a.1 = p.1
      · rw [List.find?_cons_of_pos _ (by simpa using hx)]
        constructor
        · intro hmem
          rcases List.mem_cons.mp hmem with rfl | hmem2
          · exact ⟨fun hs => ha (hx ▸ hs), rfl⟩
          · have h1 := (ih.mp hmem2).1
            exact absurd (hx ▸ List.mem_cons_self a.1 seen) h1
        · rintro ⟨-, heq⟩
          exact List.mem_cons.mpr (Or.inl (Option.some.inj heq).symm)
      · rw [List.find?_cons_of_neg _ (by simpa using hx)]
        constructor
        · intro hmem
          rcases List.mem_cons.mp hmem with rfl | hmem2
          · exact absurd rfl hx
          · have h1 := ih.mp hmem2
            exact ⟨fun hs => h1.1 (List.mem_cons_of_mem _ hs), h1.2⟩
        · rintro ⟨hseen, heq⟩
          refine List.mem_cons.mpr (Or.inr (ih.mpr ⟨?_, heq⟩))
          intro hs
          rcases List.mem_cons.mp hs with h | h
          · exact hx h.symm
          · exact hseen h

/-- Membership in the deduplicated list: exactly the last point of the
original list carrying each x-coordinate survives. -/
theorem mem_dedupLastByX {ps : List (ℚ × ℚ)} {p : ℚ × ℚ} :
    p ∈ dedupLastByX ps ↔
      ps.reverse.find? (fun q => decide (q.1 = p.1)) = some p := by
  rw [dedupLastByX, List.mem_reverse, mem_keepFirstByX]
  simp

/-- The scan keeps pairwise-distinct x-coordinates, all of them outside
`seen`. -/
theorem nodup_keepFirstByX (l : List (ℚ × ℚ)) (seen : List ℚ) :
    ((keepFirstByX l seen).map Prod.fst).Nodup ∧
      ∀ x ∈ (keepFirstByX l seen).map Prod.fst, x ∉ seen := by
  induction l generalizing seen with
  | nil => simp [keepFirstByX]
  | cons a rest ih =>
    rw [keepFirstByX]
    by_cases ha : a.1 ∈ seen
    · rw [if_pos ha]
      exact ih seen
    · rw [if_neg ha]
      have h1 := ih (a.1 :: seen)
      refine ⟨?_, ?_⟩
      · rw [List.map_cons, List.nodup_cons]
        exact ⟨fun hmem => (h1.2 a.1 hmem) (List.mem_cons_self _ _), h1.1⟩
      · intro x hx
        rw [List.map_cons, List.mem_cons] at hx
        rcases hx with rfl | hx
        · exact ha
        · exact fun hs => h1.2 x hx (List.mem_cons_of_mem _ hs)

/-- After deduplication the x-coordinates are pairwise distinct. -/
theorem nodup_fst_dedupLastByX (ps : List (ℚ × ℚ)) :
    ((dedupLastByX ps).map Prod.fst).Nodup := by
  rw [dedupLastByX, List.map_reverse, List.nodup_reverse]
  exact (nodup_keepFirstByX ps.reverse []).1

/-- On a list whose x-coordinates are already pairwise distinct the scan
keeps everything. -/
theorem keepFirstByX_eq_self {l : List (ℚ × ℚ)} {seen : List ℚ}
    (h : (l.map Prod.fst).Nodup) (hd : ∀ x ∈ l.map Prod.fst, x ∉ seen) :
    keepFirstByX l seen = l := by
  induction l generalizing seen with
  | nil => rfl
  | cons a rest ih =>
    rw [List.map_cons, List.nodup_cons] at h
    rw [keepFirstByX, if_neg (hd a.1 (by simp))]
    congr 1
    refine ih h.2 ?_
    intro x hx
    intro hs
    rcases List.mem_cons.mp hs with rfl | hs2
    · exact h.1 hx
    · exact hd x (List.mem_cons_of_mem _ hx) hs2

/-- Deduplication is the identity on point lists with pairwise-distinct
x-coordinates: the only order sensitivity of the resampler is the
last-duplicate-wins tie-break. -/
theorem dedupLastByX_eq_self {ps : List (ℚ × ℚ)}
    (h : (ps.map Prod.fst).Nodup) : dedupLastByX ps = ps := by
  rw [dedupLastByX,
    keepFirstByX_eq_self (by rw [List.map_reverse, List.nodup_reverse]; exact h) (by simp),
    List.reverse_reverse]

/-- Sorting the deduplicated knots yields a strictly x-increasing list. -/
theorem sorted_ptLT_sortByX {l : List (ℚ × ℚ)} (h : (l.map Prod.fst).Nodup) :
    List.Sorted ptLT (sortByX l) := by
  have hs : List.Sorted ptLE (sortByX l) := List.sorted_insertionSort ptLE l
  have hperm : List.Perm (sortByX l) l := List.perm_insertionSort ptLE l
  have hn : ((sortByX l).map Prod.fst).Nodup := ((hperm.map Prod.fst).nodup_iff).mpr h
  have hn2 : (sortByX l).Pairwise fun p q => p.1 ≠ q.1 := List.pairwise_map.mp hn
  exact (hs.and hn2).imp fun hpq => lt_of_le_of_ne hpq.1 hpq.2

/-- The head of a strictly sorted knot list is an x-lower bound. -/
theorem sorted_head_le {q r : ℚ × ℚ} {t : List (ℚ × ℚ)}
    (hs : List.Sorted ptLT (q :: t)) (hr : r ∈ q :: t) : q.1 ≤ r.1 := by
  rcases List.mem_cons.mp hr with rfl | h
  · exact le_refl _
  · exact (List.rel_of_sorted_cons hs r h).le

/-- Evaluation of the interpolation walk at a knot returns that knot's y. -/
theorem interpSeg_knot {knots : List (ℚ × ℚ)} {x0 y0 : ℚ}
    (hs : List.Sorted ptLT knots) (hmem : (x0, y0) ∈ knots) :
    interpSeg knots x0 = y0 := by
  induction knots with
  | nil => cases hmem
  | cons p rest ih =>
    cases rest with
    | nil =>
      rw [List.mem_singleton] at hmem
      rw [interpSeg, ← hmem]
    | cons q rest2 =>
      rw [interpSeg]
      rcases List.mem_cons.mp hmem with h | h
      · have hx : p.1 = x0 := by rw [← h]
        have hpq : p.1 < q.1 := List.rel_of_sorted_cons hs q (List.mem_cons_self _ _)
        rw [if_pos (le_of_lt (hx ▸ hpq))]
        have hz : x0 - p.1 = 0 := by rw [← hx]; ring
        rw [hz, mul_zero, zero_div, add_zero, ← h]
      · by_cases hle : x0 ≤ q.1
        · rw [if_pos hle]
          rcases List.mem_cons.mp h with hq | hrest
          · have hq1 : q.1 = x0 := by rw [← hq]
            have hq2 : q.2 = y0 := by rw [← hq]
            have hpq : p.1 < q.1 := List.rel_of_sorted_cons hs q (List.mem_cons_self _ _)
            have hne : q.1 - p.1 ≠ 0 := by
              intro hc
              exact absurd (by linarith : q.1 ≤ p.1) (not_le.mpr hpq)
            rw [← hq1, mul_div_assoc, div_self hne, mul_one]
            rw [← hq2]; ring
          · exfalso
            have hq2 : q.1 < x0 := List.rel_of_sorted_cons (List.sorted_cons.mp hs).2 (x0, y0) hrest
            exact absurd hle (not_le.mpr hq2)
        · rw [if_neg hle]
          exact ih (List.sorted_cons.mp hs).2 h

/-- Clamped interpolation at a knot returns that knot's y. -/
theorem interpClamp_knot {knots : List (ℚ × ℚ)} {x0 y0 : ℚ}
    (hs : List.Sorted ptLT knots) (hmem : (x0, y0) ∈ knots) :
    interpClamp knots x0 = y0 := by
  cases knots with
  | nil => cases hmem
  | cons p rest =>
    rw [interpClamp]
    have hp : p.1 ≤ x0 := sorted_head_le hs hmem
    rw [if_neg (not_lt.mpr hp)]
    exact interpSeg_knot hs hmem

/-- Beyond the last knot the interpolation walk clamps to the last knot's y
(the high component of `interp1d`'s `fill_value`). -/
theorem interpSeg_beyond {knots : List (ℚ × ℚ)} {pl : ℚ × ℚ} {x0 : ℚ}
    (hs : List.Sorted ptLT knots)
    (hlast : knots.getLast? = some pl) (hx : pl.1 < x0) :
    interpSeg knots x0 = pl.2 := by
  induction knots with
  | nil => cases hlast
  | cons p rest ih =>
    cases rest with
    | nil =>
      have : p = pl := by simpa using hlast
      rw [interpSeg, this]
    | cons q rest2 =>
      rw [interpSeg]
      have hlast2 : (q :: rest2).getLast? = some pl := by
        rwa [List.getLast?_cons_cons] at hlast
      have hmem : pl ∈ q :: rest2 := List.mem_of_getLast?_eq_some hlast2
      have hq : q.1 ≤ pl.1 := sorted_head_le (List.sorted_cons.mp hs).2 hmem
      rw [if_neg (not_le.mpr (lt_of_le_of_lt hq hx))]
      exact ih (List.sorted_cons.mp hs).2 hlast2

/-- Clamped interpolation beyond the span returns the last knot's y. -/
theorem interpClamp_beyond {knots : List (ℚ × ℚ)} {pl : ℚ × ℚ} {x0 : ℚ}
    (hs : List.Sorted ptLT knots)
    (hlast : knots.getLast? = some pl) (hx : pl.1 < x0) :
    interpClamp knots x0 = pl.2 := by
  cases knots with
  | nil => cases hlast
  | cons p rest =>
    rw [interpClamp]
    have hmem : pl ∈ p :: rest := List.mem_of_getLast?_eq_some hlast
    have hp : p.1 ≤ pl.1 := sorted_head_le hs hmem
    rw [if_neg (not_lt.mpr (le_of_lt (lt_of_le_of_lt hp hx)))]
    exact interpSeg_beyond hs hlast hx

/-- Below the span clamped interpolation returns the first knot's y (the low
component of `interp1d`'s `fill_value`). -/
theorem interpClamp_below {p : ℚ × ℚ} {rest : List (ℚ × ℚ)} {x0 : ℚ}
    (hx : x0 < p.1) : interpClamp (p :: rest) x0 = p.2 := by
  rw [interpClamp, if_pos hx]

/-- In the well-populated branch the resampler is the pointwise clamped
interpolant over the sorted deduplicated knots. -/
theorem sample_points_interp {ps : List (ℚ × ℚ)} (g : List ℚ)
    (h2 : 2 ≤ (dedupLastByX ps).length) :
    sample_points ps g = g.map (interpClamp (sortByX (dedupLastByX ps))) := by
  have hne : ¬ ps.isEmpty := by
    intro h
    rw [List.isEmpty_iff] at h
    subst h
    simp [dedupLastByX, keepFirstByX] at h2
  have hlen : (sortByX (dedupLastByX ps)).length = (dedupLastByX ps).length :=
    (List.perm_insertionSort ptLE _).length_eq
  rw [sample_points, if_neg hne, if_neg (by omega)]

/-! ## Claims -/

/-- Claim C1 (corrected), counterexample: the input string `y` consists of an
unknown identifier (a free variable other than `x`), yet the Test Function
validation path accepts it — `sp.sympify` turns any identifier into a free
symbol and raises only on syntax errors, so the claimed InvalidExpression
rejection does not happen. -/
theorem testFunction_accepts_unknown_identifier :
    testFunctionHandler "y" = TestFnResult.success (SymExpr.sym "y") := by decide

/-- Claim C1 (corrected), amended: the Test Function validation path rejects
exactly the strings sympify cannot parse (unbalanced or malformed input);
strings containing unknown identifiers or several distinct free variables
are accepted as symbolic expressions at validation time, and such
expressions fail only later, when `evaluate_function` calls the lambdified
function and hits a `NameError`. -/
theorem testFunction_rejects_only_syntax_errors :
    testFunctionHandler "y" = TestFnResult.success (SymExpr.sym "y") ∧
    testFunctionHandler "x + y" =
      TestFnResult.success (SymExpr.add SymExpr.var (SymExpr.sym "y")) ∧
    testFunctionHandler "(x" = TestFnResult.invalidExpression ∧
    testFunctionHandler "x +* 2" = TestFnResult.invalidExpression ∧
    evaluate_function "y" [NumVal.fin 0] = EvalResult.error := by decide

/-- Claim C2 (code_bug): evaluating the constant expression `5` over any
grid returns the numpy/Python scalar `5`, not an array of the grid's
length — `sp.lambdify` of a constant expression generates `lambda x: 5`,
which never touches its array argument.  This contradicts
`evaluate_function`'s own docstring ("Returns: np.ndarray: Array of y
values") and the claimed length-|g| contract. -/
theorem evaluate_function_constant_returns_scalar (xs : List NumVal) :
    evaluate_function "5" xs = EvalResult.ok (NpVal.scalar (NumVal.fin 5)) := by
  have h : sympify (replaceCaret "5") = some (SymExpr.num 5) := by decide
  simp only [evaluate_function, h]
  norm_num [hasFreeSym, npEval]

/-- Claim C3 (corrected), counterexample: on the claim's own example
`[(1,2), (1,5)]` deduplication keeps only `(1,5)`, leaving a single unique
x-value, so the fewer-than-2-unique-points guard fires and the output at
x=1 is 0, not the claimed 5. -/
theorem resample_duplicate_only_pair_gives_zero :
    sample_points [((1:ℚ), 2), (1, 5)] [(1:ℚ)] = [0] := by decide

/-- Claim C3 (corrected), amended: provided at least 2 unique x-values
survive deduplication, the point occurring last in the original list order
determines the value used at its x: whenever the last point of `ps` with
x-coordinate `x0` is `(x0, y0)`, the resampled output at every grid
position holding `x0` is `y0`. -/
theorem resample_last_duplicate_wins (ps : List (ℚ × ℚ)) (g : List ℚ)
    (x0 y0 : ℚ) (i : ℕ)
    (hlast : ps.reverse.find? (fun q => decide (q.1 = x0)) = some (x0, y0))
    (h2 : 2 ≤ (dedupLastByX ps).length)
    (hi : g.get? i = some x0) :
    (sample_points ps g).get? i = some y0 := by
  have hmem : (x0, y0) ∈ dedupLastByX ps := mem_dedupLastByX.mpr hlast
  have hmem2 : (x0, y0) ∈ sortByX (dedupLastByX ps) :=
    (List.perm_insertionSort ptLE _).mem_iff.mpr hmem
  have hsorted : List.Sorted ptLT (sortByX (dedupLastByX ps)) :=
    sorted_ptLT_sortByX (nodup_fst_dedupLastByX ps)
  rw [sample_points_interp g h2, List.get?_map, hi]
  rw [Option.map_some', interpClamp_knot hsorted hmem2]

/-- Witness for `resample_last_duplicate_wins`: with points
`[(1,2), (1,5), (3,7)]` (so that two unique x-values remain) and grid `[1]`,
the output at x=1 is the later duplicate's y-value 5, not 2. -/
theorem resample_last_duplicate_wins_witness :
    ([((1:ℚ), 2), (1, 5), (3, 7)].reverse.find?
        (fun q => decide (q.1 = (1:ℚ))) = some (1, 5)) ∧
    2 ≤ (dedupLastByX [((1:ℚ), 2), (1, 5), (3, 7)]).length ∧
    ([(1:ℚ)].get? 0 = some 1) ∧
    (sample_points [((1:ℚ), 2), (1, 5), (3, 7)] [(1:ℚ)]).get? 0 = some 5 :=
  ⟨by decide, by decide, by decide,
    resample_last_duplicate_wins [((1:ℚ), 2), (1, 5), (3, 7)] [(1:ℚ)] 1 5 0
      (by decide) (by decide) (by decide)⟩

/-- Claim C4 (confirmed): with at least 2 unique x-values, grid values
outside the span of the drawn points are clamped to the nearest endpoint's
y-value (flat extrapolation): below the first sorted knot the output is the
first knot's y, beyond the last sorted knot it is the last knot's y — never
a linearly extrapolated value, never a failure. -/
theorem resample_clamps_outside_span (ps : List (ℚ × ℚ)) (g : List ℚ)
    (i : ℕ) (x0 : ℚ) (pfirst plast : ℚ × ℚ)
    (h2 : 2 ≤ (dedupLastByX ps).length)
    (hhead : (sortByX (dedupLastByX ps)).head? = some pfirst)
    (hlastk : (sortByX (dedupLastByX ps)).getLast? = some plast)
    (hi : g.get? i = some x0) :
    (x0 < pfirst.1 → (sample_points ps g).get? i = some pfirst.2) ∧
    (plast.1 < x0 → (sample_points ps g).get? i = some plast.2) := by
  have hsorted : List.Sorted ptLT (sortByX (dedupLastByX ps)) :=
    sorted_ptLT_sortByX (nodup_fst_dedupLastByX ps)
  rw [sample_points_interp g h2, List.get?_map, hi]
  constructor
  · intro hlt
    rw [Option.map_some']
    cases hsrt : sortByX (dedupLastByX ps) with
    | nil => rw [hsrt] at hhead; cases hhead
    | cons a t =>
      rw [hsrt] at hhead
      have ha : a = pfirst := by simpa using hhead
      rw [interpClamp_below (ha ▸ hlt : x0 < a.1), ha]
  · intro hgt
    rw [Option.map_some', interpClamp_beyond hsorted hlastk hgt]

/-- Witness for `resample_clamps_outside_span`: the claim's example — drawn
points `(0,0), (2,4)`, grid value x=5 lies beyond the span and the output is
4, the last point's y. -/
theorem resample_clamps_outside_span_witness :
    2 ≤ (dedupLastByX [((0:ℚ), 0), (2, 4)]).length ∧
    (sortByX (dedupLastByX [((0:ℚ), 0), (2, 4)])).head? = some (0, 0) ∧
    (sortByX (dedupLastByX [((0:ℚ), 0), (2, 4)])).getLast? = some (2, 4) ∧
    ([(5:ℚ)].get? 0 = some 5) ∧
    (((5:ℚ) < 0 → (sample_points [((0:ℚ), 0), (2, 4)] [5]).get? 0 = some 0) ∧
      ((2:ℚ) < 5 → (sample_points [((0:ℚ), 0), (2, 4)] [5]).get? 0 = some 4)) :=
  ⟨by decide, by decide, by decide, by decide,
    resample_clamps_outside_span [((0:ℚ), 0), (2, 4)] [(5:ℚ)] 0 5 (0, 0) (2, 4)
      (by decide) (by decide) (by decide) (by decide)⟩

/-- Claim C5 (confirmed): for an empty point list, or any point list with
fewer than 2 unique x-values after deduplication, the resampler returns the
all-zero sequence of the grid's length — a designed fallback, not an
error. -/
theorem resample_insufficient_data_zeros (ps : List (ℚ × ℚ)) (g : List ℚ)
    (h : ps = [] ∨ (dedupLastByX ps).length < 2) :
    sample_points ps g = List.replicate g.length 0 := by
  have hlen : (sortByX (dedupLastByX ps)).length = (dedupLastByX ps).length :=
    (List.perm_insertionSort ptLE _).length_eq
  simp only [sample_points]
  rcases h with rfl | h2
  · simp
  · split_ifs with h1 h3
    · simp [List.map_const']
    · simp [List.map_const']
    · omega

/-- Witness for `resample_insufficient_data_zeros`: the two-point list
`[(1,2), (1,5)]` collapses to one unique x-value, and the output over a
2-point grid is `[0, 0]`. -/
theorem resample_insufficient_data_zeros_witness :
    ([((1:ℚ), 2), (1, 5)] = ([] : List (ℚ × ℚ)) ∨
      (dedupLastByX [((1:ℚ), 2), (1, 5)]).length < 2) ∧
    sample_points [((1:ℚ), 2), (1, 5)] [(0:ℚ), 1] = List.replicate 2 0 :=
  ⟨Or.inr (by decide),
    resample_insufficient_data_zeros [((1:ℚ), 2), (1, 5)] [(0:ℚ), 1]
      (Or.inr (by decide))⟩

/-- Claim C6 (confirmed): for every MSE value m ≥ 0 the score formula of
src/app.py line 196 equals the spec's clamp formulation, is monotonically
non-increasing in m, lies in [0, 100], equals 100 at m = 0, and equals 0
for every m ≥ 100. -/
theorem score_formula_props (m : ℚ) (hm : 0 ≤ m) :
    score_from_mse m = scoreSpecFormula m ∧
    (∀ m2 : ℚ, m ≤ m2 → score_from_mse m2 ≤ score_from_mse m) ∧
    0 ≤ score_from_mse m ∧ score_from_mse m ≤ 100 ∧
    (m = 0 → score_from_mse m = 100) ∧
    (100 ≤ m → score_from_mse m = 0) := by
  refine ⟨?_, ?_, ?_, ?_, ?_, ?_⟩
  · simp only [score_from_mse, scoreSpecFormula, max_def, min_def]
    split_ifs <;> linarith
  · intro m2 h12
    simp only [score_from_mse, max_def, min_def]
    split_ifs <;> linarith
  · exact le_max_left _ _
  · simp only [score_from_mse, max_def, min_def]
    split_ifs <;> linarith
  · intro h0
    subst h0
    norm_num [score_from_mse]
  · intro h100
    simp only [score_from_mse, max_def, min_def]
    split_ifs <;> linarith

/-- Witness for `score_formula_props` at m = 50. -/
theorem score_formula_props_witness :
    0 ≤ (50:ℚ) ∧
    (score_from_mse 50 = scoreSpecFormula 50 ∧
      (∀ m2 : ℚ, 50 ≤ m2 → score_from_mse m2 ≤ score_from_mse 50) ∧
      0 ≤ score_from_mse 50 ∧ score_from_mse 50 ≤ 100 ∧
      ((50:ℚ) = 0 → score_from_mse 50 = 100) ∧
      (100 ≤ (50:ℚ) → score_from_mse 50 = 0)) :=
  ⟨by norm_num, score_formula_props 50 (by norm_num)⟩

/-- Claim C7 (confirmed): scoring a non-empty sequence against itself gives
MSE 0 and score 100.  (The non-emptiness hypothesis matches the claim;
`np.mean` of an empty array would be nan, outside the rational model.) -/
theorem perfect_score_on_self (a : List ℚ) (ha : a ≠ []) :
    calculate_mse a a = 0 ∧ score_from_mse (calculate_mse a a) = 100 := by
  have hz : calculate_mse a a = 0 := by
    rw [calculate_mse]
    have hzip : ∀ l : List ℚ, List.zipWith (fun p q => (p - q) ^ 2) l l =
        List.replicate l.length (0:ℚ) := by
      intro l
      induction l with
      | nil => rfl
      | cons x t ih => simp [List.replicate_succ, ih]
    rw [hzip]
    simp
  refine ⟨hz, ?_⟩
  rw [hz]
  norm_num [score_from_mse]

/-- Witness for `perfect_score_on_self` at the sequence `[1, 2]`. -/
theorem perfect_score_on_self_witness :
    ([(1:ℚ), 2] ≠ []) ∧
    (calculate_mse [(1:ℚ), 2] [(1:ℚ), 2] = 0 ∧
      score_from_mse (calculate_mse [(1:ℚ), 2] [(1:ℚ), 2]) = 100) :=
  ⟨by decide, perfect_score_on_self [(1:ℚ), 2] (by decide)⟩

/-- Claim C8 (corrected), counterexample: evaluating `1/x` on a grid
containing 0 does not fail atomically — numpy emits a warning and returns
infinity, so `evaluate_function` returns a sequence carrying a non-finite
value instead of raising an `EvaluationError`. -/
theorem evaluate_function_domain_error_returns_inf :
    evaluate_function "1/x" [NumVal.fin 0] =
      EvalResult.ok (NpVal.vec [NumVal.pinf]) := by decide

/-- Claim C8 (corrected), amended: numeric domain errors during sampling do
not fail the call and are not replaced by zeros; numpy produces non-finite
values (inf/nan) at the failing grid points, the remaining points are still
evaluated, and the non-finite samples are silently carried into the scorer,
whose mean is then itself non-finite.  Only raised Python exceptions are
caught, by the try/except of src/app.py lines 187-243. -/
theorem evaluate_function_nonfinite_propagates :
    evaluate_function "1/x" [NumVal.fin (-1), NumVal.fin 0] =
      EvalResult.ok (NpVal.vec [NumVal.fin (-1), NumVal.pinf]) ∧
    evaluate_function "1/x - 1/x**2" [NumVal.fin 0] =
      EvalResult.ok (NpVal.vec [NumVal.nan]) ∧
    calculate_mse_np [NumVal.fin (-1), NumVal.pinf] [NumVal.fin 0, NumVal.fin 0] =
      NumVal.pinf := by
  refine ⟨?_, ?_, ?_⟩
  · have h : sympify (replaceCaret "1/x") =
        some (SymExpr.div (SymExpr.num 1) SymExpr.var) := by decide
    simp only [evaluate_function, h]
    norm_num [hasFreeSym, npEval, npBroadcast, nvDiv]
  · have h : sympify (replaceCaret "1/x - 1/x**2") =
        some (SymExpr.sub (SymExpr.div (SymExpr.num 1) SymExpr.var)
          (SymExpr.div (SymExpr.num 1) (SymExpr.pow SymExpr.var (SymExpr.num 2)))) := by
      decide
    simp only [evaluate_function, h]
    norm_num [hasFreeSym, npEval, npBroadcast, nvDiv, nvPow, nvSub, nvAdd, nvNeg,
      ratZpow, ratNpow]
  · norm_num [calculate_mse_np, nvSub, nvAdd, nvNeg, nvPow, nvMul, nvDiv, ratZpow,
      ratNpow]

/-- Claim C9 (confirmed): on point lists with pairwise-distinct
x-coordinates the resampler is invariant under permutation of the input
list — deduplication keeps every point and the sorted knot list is uniquely
determined. -/
theorem resample_order_invariant (ps ps2 : List (ℚ × ℚ)) (g : List ℚ)
    (hperm : List.Perm ps ps2) (hnodup : (ps.map Prod.fst).Nodup) :
    sample_points ps g = sample_points ps2 g := by
  have hnodup2 : (ps2.map Prod.fst).Nodup := ((hperm.map Prod.fst).nodup_iff).mp hnodup
  by_cases hps : ps = []
  · subst hps
    have h2 : ps2 = [] := hperm.symm.eq_nil
    subst h2
    rfl
  · have hps2 : ps2 ≠ [] := fun h => hps ((h ▸ hperm).eq_nil)
    have hsort : sortByX ps = sortByX ps2 :=
      List.eq_of_perm_of_sorted
        (((List.perm_insertionSort ptLE ps).trans hperm).trans
          (List.perm_insertionSort ptLE ps2).symm)
        (sorted_ptLT_sortByX hnodup) (sorted_ptLT_sortByX hnodup2)
    simp only [sample_points]
    rw [dedupLastByX_eq_self hnodup, dedupLastByX_eq_self hnodup2, hsort,
      if_neg (show ¬(ps.isEmpty = true) by simp [List.isEmpty_iff, hps]),
      if_neg (show ¬(ps2.isEmpty = true) by simp [List.isEmpty_iff, hps2])]

/-- Witness for `resample_order_invariant`: swapping the two distinct-x
points `(0,0), (2,4)` leaves the resampled output unchanged. -/
theorem resample_order_invariant_witness :
    List.Perm [((0:ℚ), 0), (2, 4)] [((2:ℚ), 4), (0, 0)] ∧
    ([((0:ℚ), 0), (2, 4)].map Prod.fst).Nodup ∧
    sample_points [((0:ℚ), 0), (2, 4)] [(1:ℚ)] =
      sample_points [((2:ℚ), 4), (0, 0)] [(1:ℚ)] :=
  ⟨by decide, by decide,
    resample_order_invariant [((0:ℚ), 0), (2, 4)] [((2:ℚ), 4), (0, 0)] [(1:ℚ)]
      (by decide) (by decide)⟩

/-- Claim C10 (confirmed): `sample_points` is total — every branch is
guarded — and always returns a sequence of exactly the grid's length. -/
theorem sample_points_total_length (ps : List (ℚ × ℚ)) (g : List ℚ) :
    (sample_points ps g).length = g.length := by
  simp only [sample_points]
  split_ifs <;> simp
